import Mathlib

/-!
Shallow embedding of `src/concurrency/concurrency/Task.h` (namespace `conc11`):
the task-node and continuation engine. It covers `TaskStatus`, the `Task<T>`
node (status lifecycle, result channel as promise/shared_future generations,
weak continuation reference, strong dependency list, global instance counter),
`operator()` (invocation with synchronous continuation cascade),
`setStatus`/`reset`, `then`, `addDependencies` (batch, variadic and
zero-argument forms), the destructor check, and the time-interval collector
accessors.

Modelling conventions:
- the collection of `shared_ptr`-owned nodes is a heap `NodeId → Option (Task T)`;
  a `std::weak_ptr` is an `Option NodeId` whose liveness is checked against the
  heap (`expired` / `lock`), mirroring `std::weak_ptr::expired/lock` under the
  sequential semantics of the source;
- the result channel (`m_promise` / `m_future`) is modelled by a generation
  counter per node plus a log of fulfilments keyed by (node, generation);
  `reset` allocates a fresh generation; a future handle is a (node, generation)
  pair and reading it looks up the fulfilment log;
- the `std::function<void()>` bodies stored in nodes are a deep embedding
  `FuncCode` of the function shapes appearing in the source and in the spec's
  scenarios (a user function that fulfils its promise and sets `TsDone`, the
  wrapper built by `then`, a function that only sets a status, and a no-op);
- `unsigned int` arithmetic on `s_instanceCount` is `Nat` arithmetic `% 2^32`;
- assertion failures are explicit `Outcome` values rather than aborts;
- `execLog` is a ghost log with one entry per run of a node's wrapped function
  (the `ScopedTimeInterval` bracket around each execution; the header
  `TimeIntervalCollector.h` is an external collaborator of this core).
-/

namespace conc11

/-- The `TaskStatus` enumeration from Task.h. -/
inductive TaskStatus where
  | TsPending
  | TsScheduledOnce
  | TsScheduledPolling
  | TsDone
  | TsInvalid
deriving DecidableEq

open TaskStatus

/-- Identity of a heap-allocated node (a `shared_ptr<Task<T>>` target). -/
abbrev NodeId := Nat

/-- Opaque handle for a `TimeIntervalCollector` (external collaborator). -/
abbrev CollectorId := Nat

/-- Shape of the callable handed to `then`.  Modelled from the spec:
`FunctionTraits` (FunctionTraits.h, not under src/) decides at compile time
whether the callable takes the trigger's result as an argument or takes no
argument; both shapes produce a value of the node's result type. -/
inductive Callable (T : Type) where
  | withArg (f : T → T)
  | noArg (f : Unit → T)

/-- Deep embedding of the `std::function<void()>` bodies stored in a node's
`m_function`.  `thenCont src g c` is the wrapper that `then` builds: it
captures the trigger node `src` and (by value) the trigger's shared_future of
generation `g`, and on invocation feeds the trigger's result to the callable
`c`, fulfils this node's current promise with the produced value and sets this
node's status to `TsDone`.  `setResultDone v` is the user-function shape used
throughout the spec ("write the result channel and call setStatus(Done)");
`setOwnStatus s` only calls `setStatus s`; `noop` returns without touching
the node. -/
inductive FuncCode (T : Type) where
  | setResultDone (v : T)
  | thenCont (src : NodeId) (g : Nat) (c : Callable T)
  | setOwnStatus (s : TaskStatus)
  | noop

/-- State of a single `Task<T>` node (Task.h lines 241-256).  `promiseGen`
stands for the current `m_promise`/`m_future` pair: `reset()` replaces both
with a fresh pair, modelled as incrementing the generation.  `m_debugColor`
(three floats with no behavioral effect) is not modelled. -/
structure Task (T : Type) where
  function : Option (FuncCode T)
  promiseGen : Nat
  continuation : Option NodeId
  dependencies : List NodeId
  collector : Option CollectorId
  name : String
  status : TaskStatus
  isContinuation : Bool

/-- Global state: the heap of live nodes, the fulfilment log of all result
channels (a `shared_future`'s shared state survives its node, hence a log
outside the heap), the `s_instanceCount` global, the allocator cursor, and
the ghost execution log. -/
structure World (T : Type) where
  heap : NodeId → Option (Task T)
  writes : List (NodeId × Nat × T)
  instanceCount : Nat
  nextId : NodeId
  execLog : List NodeId

/-- The world before any node has been constructed. -/
def emptyWorld {T : Type} : World T :=
  { heap := fun _ => none
    writes := []
    instanceCount := 0
    nextId := 0
    execLog := [] }

/-- Point update of the heap. -/
def updateNode {T : Type} (h : NodeId → Option (Task T)) (i : NodeId)
    (v : Option (Task T)) : NodeId → Option (Task T) :=
  fun j => if j = i then v else h j

/-- Apply `f` to the node at `i` when it is alive. -/
def World.modifyNode {T : Type} (w : World T) (i : NodeId) (f : Task T → Task T) :
    World T :=
  match w.heap i with
  | some n => { w with heap := updateNode w.heap i (some (f n)) }
  | none => w

/-- The node state produced by the `Task` constructor (Task.h lines 59-80)
before its trailing `reset()` call: no function, empty dependencies, empty
continuation, null collector, status `TsInvalid`. -/
def mkTask {T : Type} (nm : String) (isCont : Bool) : Task T :=
  { function := none
    promiseGen := 0
    continuation := none
    dependencies := []
    collector := none
    name := nm
    status := TsInvalid
    isContinuation := isCont }

/-- `Task<T>::reset` (Task.h lines 146-150): make a fresh promise and a fresh
shared future obtained from it, i.e. start a new generation of the result
channel. -/
def Task.reset {T : Type} (n : Task T) : Task T :=
  { n with promiseGen := n.promiseGen + 1 }

/-- Constructing a node (`std::make_shared<Task<T>>(name, color, isCont)`):
increments `s_instanceCount` (unsigned int), allocates a fresh id, and the
constructor body ends with `reset()`. -/
def World.construct {T : Type} (w : World T) (nm : String) (isCont : Bool) :
    World T × NodeId :=
  ({ w with
      heap := updateNode w.heap w.nextId (some ((mkTask nm isCont).reset))
      instanceCount := (w.instanceCount + 1) % 4294967296
      nextId := w.nextId + 1 }, w.nextId)

/-- The destructor's assertion expression, exactly as written in Task.h line 84:
`m_status != TsPending || m_status != TsScheduledOnce || m_status != TsScheduledPolling`. -/
def dtorAssert (s : TaskStatus) : Bool :=
  decide (s ≠ TsPending) || decide (s ≠ TsScheduledOnce) || decide (s ≠ TsScheduledPolling)

/-- The destructor check the spec describes (a second definition following the
spec's words, for comparison with `dtorAssert`): a node must never be destroyed
while still `Pending`, `ScheduledOnce` or `ScheduledPolling`, i.e. the check
passes exactly when the status is none of the three live scheduled statuses. -/
def dtorAssertIntended (s : TaskStatus) : Bool :=
  decide (s ≠ TsPending) && decide (s ≠ TsScheduledOnce) && decide (s ≠ TsScheduledPolling)

/-- `Task<T>::~Task` (Task.h lines 82-86): evaluate the assertion expression on
the node's status, remove the node from the heap and decrement
`s_instanceCount` (unsigned int wrap-around).  Returns the value of the
assertion expression (`false` would be an assertion failure). -/
def World.destroy {T : Type} (w : World T) (i : NodeId) : World T × Bool :=
  match w.heap i with
  | some n =>
      ({ w with
          heap := updateNode w.heap i none
          instanceCount := (w.instanceCount + 4294967295) % 4294967296 },
        dtorAssert n.status)
  | none => (w, true)

/-- `Task<T>::getStatus` (Task.h lines 113-116), lifted to the heap. -/
def World.getStatus {T : Type} (w : World T) (i : NodeId) : Option TaskStatus :=
  (w.heap i).map Task.status

/-- `Task<T>::setStatus` (Task.h lines 118-124): when the current status is
`TsDone` and the new one is not, call `reset()` first; then record the new
status. -/
def World.setStatus {T : Type} (w : World T) (i : NodeId) (s : TaskStatus) :
    World T :=
  w.modifyNode i (fun n =>
    let n1 := if n.status = TsDone ∧ s ≠ TsDone then n.reset else n
    { n1 with status := s })

/-- `Task<T>::setFunction` / `moveFunction` (Task.h lines 169-177). -/
def World.setFunction {T : Type} (w : World T) (i : NodeId) (f : FuncCode T) :
    World T :=
  w.modifyNode i (fun n => { n with function := some f })

/-- `Task<T>::getDependencies` (Task.h lines 131-134). -/
def World.getDependencies {T : Type} (w : World T) (i : NodeId) :
    Option (List NodeId) :=
  (w.heap i).map Task.dependencies

/-- `Task<T>::getTimeIntervalCollector` (Task.h lines 136-139): note that the
source takes a `collector` argument and ignores it, returning `m_collector`. -/
def World.getTimeIntervalCollector {T : Type} (w : World T) (i : NodeId)
    (_collector : Option CollectorId) : Option (Option CollectorId) :=
  (w.heap i).map Task.collector

/-- `Task<T>::setTimeIntervalCollector` (Task.h lines 141-144). -/
def World.setTimeIntervalCollector {T : Type} (w : World T) (i : NodeId)
    (c : Option CollectorId) : World T :=
  w.modifyNode i (fun n => { n with collector := c })

/-- `m_promise->set_value(v)`: fulfil the node's current-generation promise. -/
def World.fulfill {T : Type} (w : World T) (i : NodeId) (v : T) : World T :=
  match w.heap i with
  | some n => { w with writes := w.writes ++ [(i, n.promiseGen, v)] }
  | none => w

/-- Read a shared future of node `i`, generation `g`: the value the single
writer of that generation fulfilled it with, if any. -/
def futureRead {T : Type} (w : World T) (i : NodeId) (g : Nat) : Option T :=
  (w.writes.find? (fun e => e.1 == i && e.2.1 == g)).map (fun e => e.2.2)

/-- `Task<T>::getFuture` (Task.h lines 194-197): a handle on the node's current
result channel, identified by the node and its current generation. -/
def World.getFuture {T : Type} (w : World T) (i : NodeId) :
    Option (NodeId × Nat) :=
  (w.heap i).map (fun n => (i, n.promiseGen))

/-- Read through a future handle as returned by `World.getFuture`. -/
def readFuture {T : Type} (w : World T) (h : Option (NodeId × Nat)) : Option T :=
  h.bind (fun q => futureRead w q.1 q.2)

/-- Batch `addDependencies` (Task.h lines 199-203):
`m_dependencies.insert(m_dependencies.end(), deps.begin(), deps.end())`. -/
def World.addDependencies {T : Type} (w : World T) (i : NodeId)
    (deps : List NodeId) : World T :=
  w.modifyNode i (fun n => { n with dependencies := n.dependencies ++ deps })

/-- Variadic `addDependencies` (Task.h lines 205-214): push the first argument
to the back, recurse on the rest; the zero-argument overload does nothing. -/
def World.addDependenciesVariadic {T : Type} (w : World T) (i : NodeId) :
    List NodeId → World T
  | [] => w
  | d :: ds =>
      (w.modifyNode i (fun n => { n with dependencies := n.dependencies ++ [d] })).addDependenciesVariadic i ds

/-- `std::weak_ptr::expired` on the continuation reference: true for the empty
reference and for a reference whose target has been destroyed. -/
def expired {T : Type} (w : World T) (c : Option NodeId) : Bool :=
  match c with
  | none => true
  | some i => (w.heap i).isNone

/-- `std::weak_ptr::lock` on the continuation reference: the target when it is
still alive. -/
def lock {T : Type} (w : World T) (c : Option NodeId) : Option NodeId :=
  match c with
  | some i => if (w.heap i).isSome then some i else none
  | none => none

/-- The continuation reference currently stored in node `i`. -/
def contOf {T : Type} (w : World T) (i : NodeId) : Option NodeId :=
  match w.heap i with
  | some n => n.continuation
  | none => none

/-- Ghost step: record one run of node `i`'s wrapped function (the
`ScopedTimeInterval` bracket that `operator()` opens around `m_function()`). -/
def pushExec {T : Type} (w : World T) (i : NodeId) : World T :=
  { w with execLog := w.execLog ++ [i] }

/-- Run one `FuncCode` body as node `i`'s `m_function()`.  The Bool is `true`
when the function returned, `false` when it blocked forever (a
`shared_future::get` on a never-fulfilled future).  The `thenCont` write is
modelled from the spec: `trySetFuncResult` (TaskUtils.h, not under src/) calls
the callable with the trigger's result if it accepts an argument, otherwise
with no argument, and writes the produced value into this node's promise; the
subsequent `setStatus(TsDone)` is literally in the wrapper built by `then`. -/
def runFunc {T : Type} (w : World T) (i : NodeId) : FuncCode T → World T × Bool
  | .setResultDone v => ((w.fulfill i v).setStatus i TsDone, true)
  | .thenCont src g c =>
      match c with
      | .noArg f => ((w.fulfill i (f ())).setStatus i TsDone, true)
      | .withArg f =>
          match futureRead w src g with
          | some v => ((w.fulfill i (f v)).setStatus i TsDone, true)
          | none => (w, false)
  | .setOwnStatus s => (w.setStatus i s, true)
  | .noop => (w, true)

/-- Result of an invocation: normal return, one of the three assertion sites of
`operator()` (`assert(m_function)`, `assert(m_status != TsInvalid)`,
`assert(false)` in the continuation-lock else-branch), or a permanent block
inside the wrapped function. -/
inductive Outcome where
  | ok
  | assertNoFunction
  | assertInvalidStatus
  | assertContinuationLock
  | blocked
deriving DecidableEq

/-- `Task<T>::operator()` (Task.h lines 88-111): assert a function is set, run
it inside the profiling scope, assert the status is no longer `TsInvalid`, and
when the status is `TsDone` and the continuation reference is not expired,
lock and synchronously invoke the continuation (recursively), asserting if the
lock fails.  `fuel` bounds the cascade depth; `none` means the node was dead
(undefined behavior in the source) or the fuel ran out. -/
def invoke {T : Type} : Nat → World T → NodeId → Option (World T × Outcome)
  | 0, _, _ => none
  | fuel + 1, w, i =>
      match w.heap i with
      | none => none
      | some n =>
          match n.function with
          | none => some (w, Outcome.assertNoFunction)
          | some fc =>
              match runFunc (pushExec w i) i fc with
              | (w2, false) => some (w2, Outcome.blocked)
              | (w2, true) =>
                  match w2.heap i with
                  | none => none
                  | some n2 =>
                      if n2.status = TsInvalid then
                        some (w2, Outcome.assertInvalidStatus)
                      else if n2.status = TsDone ∧ expired w2 n2.continuation = false then
                        match lock w2 n2.continuation with
                        | some c => invoke fuel w2 c
                        | none => some (w2, Outcome.assertContinuationLock)
                      else
                        some (w2, Outcome.ok)

/-- `Task<T>::then` (Task.h lines 216-239): construct a fresh node marked as a
continuation, store in it the wrapper function (which captures this node and,
by value, this node's current shared future), register this node as its single
dependency via the variadic `addDependencies`, point this node's continuation
reference at it, and return it.  Calling `then` through a destroyed node is
undefined behavior in the source; the model leaves the world unchanged. -/
def World.thenTask {T : Type} (w : World T) (i : NodeId) (c : Callable T)
    (nm : String) : World T × NodeId :=
  match w.heap i with
  | some n =>
      let p := w.construct nm true
      let w2 := p.1.setFunction p.2 (FuncCode.thenCont i n.promiseGen c)
      let w3 := w2.addDependenciesVariadic p.2 [i]
      let w4 := w3.modifyNode i (fun m => { m with continuation := some p.2 })
      (w4, p.2)
  | none => (w, w.nextId)

/-- Heap addresses at or beyond the allocation cursor are unused.  Holds for
every world built from `emptyWorld` by the operations of this file. -/
def WF {T : Type} (w : World T) : Prop :=
  ∀ j, w.nextId ≤ j → w.heap j = none

/-- Every fulfilment in the log targets an already-allocated id. -/
def writesIdsBound {T : Type} (w : World T) : Bool :=
  w.writes.all (fun e => decide (e.1 < w.nextId))

/-- Every fulfilment of a live node's channel is at a generation no newer than
the node's current one (no write can target a future generation). -/
def writesBound {T : Type} (w : World T) : Bool :=
  w.writes.all (fun e =>
    match w.heap e.1 with
    | some n => decide (e.2.1 ≤ n.promiseGen)
    | none => true)

/-- Every continuation reference points to a strictly newer node than its
owner.  `then` establishes this (the continuation is freshly allocated), and
no operation of the engine ever lowers a continuation target. -/
def contGT {T : Type} (w : World T) : Prop :=
  ∀ i n c, w.heap i = some n → n.continuation = some c → i < c

/-! ### Basic lemmas about the heap operations -/

theorem updateNode_self {T : Type} (h : NodeId → Option (Task T)) (i : NodeId)
    (v : Option (Task T)) : updateNode h i v i = v := by
  simp [updateNode]

theorem updateNode_ne {T : Type} (h : NodeId → Option (Task T)) {i j : NodeId}
    (v : Option (Task T)) (hne : j ≠ i) : updateNode h i v j = h j := by
  simp [updateNode, hne]

theorem modifyNode_heap_self {T : Type} {w : World T} {i : NodeId} {n : Task T}
    (f : Task T → Task T) (h : w.heap i = some n) :
    (w.modifyNode i f).heap i = some (f n) := by
  simp [World.modifyNode, h, updateNode]

theorem modifyNode_heap_ne {T : Type} {w : World T} (i : NodeId) {j : NodeId}
    (f : Task T → Task T) (hne : j ≠ i) :
    (w.modifyNode i f).heap j = w.heap j := by
  unfold World.modifyNode
  cases h : w.heap i <;> simp [h, updateNode, hne]

theorem modifyNode_writes {T : Type} (w : World T) (i : NodeId)
    (f : Task T → Task T) : (w.modifyNode i f).writes = w.writes := by
  unfold World.modifyNode
  cases h : w.heap i <;> rfl

theorem modifyNode_execLog {T : Type} (w : World T) (i : NodeId)
    (f : Task T → Task T) : (w.modifyNode i f).execLog = w.execLog := by
  unfold World.modifyNode
  cases h : w.heap i <;> rfl

theorem modifyNode_instanceCount {T : Type} (w : World T) (i : NodeId)
    (f : Task T → Task T) : (w.modifyNode i f).instanceCount = w.instanceCount := by
  unfold World.modifyNode
  cases h : w.heap i <;> rfl

theorem modifyNode_nextId {T : Type} (w : World T) (i : NodeId)
    (f : Task T → Task T) : (w.modifyNode i f).nextId = w.nextId := by
  unfold World.modifyNode
  cases h : w.heap i <;> rfl

theorem fulfill_writes {T : Type} {w : World T} {i : NodeId} {n : Task T}
    (v : T) (h : w.heap i = some n) :
    (w.fulfill i v).writes = w.writes ++ [(i, n.promiseGen, v)] := by
  simp [World.fulfill, h]

theorem fulfill_heap {T : Type} (w : World T) (i j : NodeId) (v : T) :
    (w.fulfill i v).heap j = w.heap j := by
  unfold World.fulfill
  cases h : w.heap i <;> rfl

theorem fulfill_execLog {T : Type} (w : World T) (i : NodeId) (v : T) :
    (w.fulfill i v).execLog = w.execLog := by
  unfold World.fulfill
  cases h : w.heap i <;> rfl

theorem fulfill_instanceCount {T : Type} (w : World T) (i : NodeId) (v : T) :
    (w.fulfill i v).instanceCount = w.instanceCount := by
  unfold World.fulfill
  cases h : w.heap i <;> rfl

theorem fulfill_nextId {T : Type} (w : World T) (i : NodeId) (v : T) :
    (w.fulfill i v).nextId = w.nextId := by
  unfold World.fulfill
  cases h : w.heap i <;> rfl

/-! ### C2 — the destructor's status check -/

/-- World with a single node that has been moved to `TsPending`. -/
def c2world : World Nat :=
  ((emptyWorld.construct "" false).1.setStatus 0 TsPending)

/-- C2: the claim says destroying a node whose status is `Pending`,
`ScheduledOnce` or `ScheduledPolling` fails the destructor's assertion.  The
assertion actually written in the source,
`m_status != TsPending || m_status != TsScheduledOnce || m_status != TsScheduledPolling`,
is a tautology: it evaluates to `true` for every status, so destroying a node
in status `TsPending` passes the check, while the conjunctive check the spec
describes rejects it. -/
theorem c2_dtor_check_tautology :
    (∀ s, dtorAssert s = true) ∧
    (c2world.getStatus 0 = some TsPending) ∧
    ((c2world.destroy 0).2 = true) ∧
    (dtorAssertIntended TsPending = false) := by
  refine ⟨fun s => by cases s <;> rfl, by decide, by decide, by decide⟩

/-! ### Frame lemmas for setStatus, runFunc and invoke -/

theorem setStatus_heap_done_ne {T : Type} {w : World T} {i : NodeId} {n : Task T}
    (s : TaskStatus) (h : w.heap i = some n) (hd : n.status = TsDone)
    (hs : s ≠ TsDone) :
    (w.setStatus i s).heap i = some { n.reset with status := s } := by
  simp [World.setStatus, modifyNode_heap_self _ h, hd, hs]

theorem setStatus_heap_other {T : Type} {w : World T} {i : NodeId} {n : Task T}
    (s : TaskStatus) (h : w.heap i = some n)
    (hns : ¬(n.status = TsDone ∧ s ≠ TsDone)) :
    (w.setStatus i s).heap i = some { n with status := s } := by
  simp only [World.setStatus, modifyNode_heap_self _ h, if_neg hns]

theorem setStatus_writes {T : Type} (w : World T) (i : NodeId) (s : TaskStatus) :
    (w.setStatus i s).writes = w.writes := by
  simp [World.setStatus, modifyNode_writes]

theorem setStatus_execLog {T : Type} (w : World T) (i : NodeId) (s : TaskStatus) :
    (w.setStatus i s).execLog = w.execLog := by
  unfold World.setStatus; exact modifyNode_execLog w i _

theorem setStatus_instanceCount {T : Type} (w : World T) (i : NodeId)
    (s : TaskStatus) : (w.setStatus i s).instanceCount = w.instanceCount := by
  unfold World.setStatus; exact modifyNode_instanceCount w i _

theorem setStatus_nextId {T : Type} (w : World T) (i : NodeId) (s : TaskStatus) :
    (w.setStatus i s).nextId = w.nextId := by
  unfold World.setStatus; exact modifyNode_nextId w i _

theorem setStatus_heap_ne {T : Type} (w : World T) (i : NodeId) {j : NodeId}
    (s : TaskStatus) (hj : j ≠ i) : (w.setStatus i s).heap j = w.heap j := by
  unfold World.setStatus; exact modifyNode_heap_ne i _ hj

theorem setStatus_heap_cont {T : Type} (w : World T) (i : NodeId) (s : TaskStatus)
    (j : NodeId) :
    ((w.setStatus i s).heap j).map Task.continuation =
      (w.heap j).map Task.continuation := by
  by_cases hj : j = i
  · subst hj
    cases hn : w.heap j with
    | none => simp [World.setStatus, World.modifyNode, hn]
    | some n =>
        by_cases hc : n.status = TsDone ∧ s ≠ TsDone
        · rw [setStatus_heap_done_ne s hn hc.1 hc.2]; rfl
        · rw [setStatus_heap_other s hn hc]; rfl
  · rw [setStatus_heap_ne w i s hj]

theorem runFunc_execLog {T : Type} (w : World T) (i : NodeId) (fc : FuncCode T) :
    (runFunc w i fc).1.execLog = w.execLog := by
  cases fc with
  | setResultDone v => simp [runFunc, setStatus_execLog, fulfill_execLog]
  | thenCont src g c =>
      cases c with
      | noArg f => simp [runFunc, setStatus_execLog, fulfill_execLog]
      | withArg f =>
          cases h : futureRead w src g <;>
            simp [runFunc, h, setStatus_execLog, fulfill_execLog]
  | setOwnStatus s => simp [runFunc, setStatus_execLog]
  | noop => simp [runFunc]

theorem runFunc_instanceCount {T : Type} (w : World T) (i : NodeId)
    (fc : FuncCode T) : (runFunc w i fc).1.instanceCount = w.instanceCount := by
  cases fc with
  | setResultDone v => simp [runFunc, setStatus_instanceCount, fulfill_instanceCount]
  | thenCont src g c =>
      cases c with
      | noArg f => simp [runFunc, setStatus_instanceCount, fulfill_instanceCount]
      | withArg f =>
          cases h : futureRead w src g <;>
            simp [runFunc, h, setStatus_instanceCount, fulfill_instanceCount]
  | setOwnStatus s => simp [runFunc, setStatus_instanceCount]
  | noop => simp [runFunc]

theorem runFunc_nextId {T : Type} (w : World T) (i : NodeId) (fc : FuncCode T) :
    (runFunc w i fc).1.nextId = w.nextId := by
  cases fc with
  | setResultDone v => simp [runFunc, setStatus_nextId, fulfill_nextId]
  | thenCont src g c =>
      cases c with
      | noArg f => simp [runFunc, setStatus_nextId, fulfill_nextId]
      | withArg f =>
          cases h : futureRead w src g <;>
            simp [runFunc, h, setStatus_nextId, fulfill_nextId]
  | setOwnStatus s => simp [runFunc, setStatus_nextId]
  | noop => simp [runFunc]

theorem runFunc_heap_cont {T : Type} (w : World T) (i : NodeId) (fc : FuncCode T)
    (j : NodeId) :
    ((runFunc w i fc).1.heap j).map Task.continuation =
      (w.heap j).map Task.continuation := by
  cases fc with
  | setResultDone v =>
      simp [runFunc]
      rw [show ((w.fulfill i v).setStatus i TsDone).heap j =
            (((w.fulfill i v).setStatus i TsDone)).heap j from rfl]
      rw [setStatus_heap_cont _ i TsDone j]
      simp [fulfill_heap]
  | thenCont src g c =>
      cases c with
      | noArg f =>
          simp [runFunc]
          rw [setStatus_heap_cont _ i TsDone j]
          simp [fulfill_heap]
      | withArg f =>
          cases h : futureRead w src g with
          | none => simp [runFunc, h]
          | some v =>
              simp [runFunc, h]
              rw [setStatus_heap_cont _ i TsDone j]
              simp [fulfill_heap]
  | setOwnStatus s =>
      simp [runFunc]
      rw [setStatus_heap_cont w i s j]
  | noop => simp [runFunc]

theorem pushExec_heap {T : Type} (w : World T) (i : NodeId) :
    (pushExec w i).heap = w.heap := rfl

theorem pushExec_writes {T : Type} (w : World T) (i : NodeId) :
    (pushExec w i).writes = w.writes := rfl

theorem pushExec_execLog {T : Type} (w : World T) (i : NodeId) :
    (pushExec w i).execLog = w.execLog ++ [i] := rfl

theorem contGT_pushExec {T : Type} {w : World T} (i : NodeId) (h : contGT w) :
    contGT (pushExec w i) := h

theorem runFunc_contGT {T : Type} {w : World T} (i : NodeId) (fc : FuncCode T)
    (h : contGT w) : contGT (runFunc w i fc).1 := by
  intro j n c hj hc
  have hmap := runFunc_heap_cont w i fc j
  rw [hj] at hmap
  cases hw : w.heap j with
  | none => rw [hw] at hmap; simp at hmap
  | some m =>
      rw [hw] at hmap
      simp only [Option.map_some', Option.some.injEq] at hmap
      exact h j m c hw (by rw [← hmap]; exact hc)

/-- Structure of the ghost log after an invocation: `invoke` appends, first
the invoked node's own run, then runs of nodes reached through continuation
references; under the `contGT` invariant all of those are strictly newer
nodes, so the invoked node's own function runs exactly once when it is
assigned (and never when the assertion on a missing function fires). -/
theorem invoke_execLog {T : Type} :
    ∀ (fuel : Nat) (w : World T) (i : NodeId) (w2 : World T) (o : Outcome),
      contGT w → invoke fuel w i = some (w2, o) →
      ∃ l, w2.execLog = w.execLog ++ l ∧ (∀ j ∈ l, i ≤ j) ∧
        ((w.heap i).bind Task.function = none → l = []) ∧
        ((w.heap i).bind Task.function ≠ none → l.count i = 1)
  | 0, w, i, w2, o, _, h => by simp [invoke] at h
  | fuel + 1, w, i, w2, o, hGT, h => by
      cases hh : w.heap i with
      | none => simp [invoke, hh] at h
      | some n =>
          cases hf : n.function with
          | none =>
              simp only [invoke, hh, hf, Option.some.injEq, Prod.mk.injEq] at h
              obtain ⟨rfl, rfl⟩ := h
              exact ⟨[], by simp, by simp, fun _ => rfl,
                fun hne => absurd (by simp [hf]) hne⟩
          | some fc =>
              rcases hr : runFunc (pushExec w i) i fc with ⟨wr, r⟩
              simp only [invoke, hh, hf, hr] at h
              have hwrlog : wr.execLog = w.execLog ++ [i] := by
                have h0 := runFunc_execLog (pushExec w i) i fc
                rw [hr] at h0
                simpa [pushExec] using h0
              have hfun_ne : ((some n : Option (Task T)).bind Task.function) ≠ none := by
                simp [hf]
              cases r with
              | false =>
                  simp only [Option.some.injEq, Prod.mk.injEq] at h
                  refine ⟨[i], ?_, by simp, fun h0 => absurd h0 hfun_ne,
                    fun _ => by simp⟩
                  rw [← h.1, hwrlog]
              | true =>
                  cases hh2 : wr.heap i with
                  | none => simp [hh2] at h
                  | some n2 =>
                      simp only [hh2] at h
                      have hGTwr : contGT wr := by
                        have := runFunc_contGT (w := pushExec w i) i fc hGT
                        rw [hr] at this
                        exact this
                      by_cases hinv : n2.status = TsInvalid
                      · rw [if_pos hinv] at h
                        simp only [Option.some.injEq, Prod.mk.injEq] at h
                        refine ⟨[i], ?_, by simp, fun h0 => absurd h0 hfun_ne,
                          fun _ => by simp⟩
                        rw [← h.1, hwrlog]
                      · rw [if_neg hinv] at h
                        by_cases hdone : n2.status = TsDone ∧
                            expired wr n2.continuation = false
                        · rw [if_pos hdone] at h
                          cases hl : lock wr n2.continuation with
                          | none =>
                              simp only [hl, Option.some.injEq,
                                Prod.mk.injEq] at h
                              refine ⟨[i], ?_, by simp,
                                fun h0 => absurd h0 hfun_ne, fun _ => by simp⟩
                              rw [← h.1, hwrlog]
                          | some c =>
                              simp only [hl] at h
                              have hcont : n2.continuation = some c := by
                                cases hcc : n2.continuation with
                                | none => rw [hcc] at hl; simp [lock] at hl
                                | some c0 =>
                                    rw [hcc] at hl
                                    by_cases hcs : (wr.heap c0).isSome
                                    · simp [lock, hcs] at hl
                                      rw [hl]
                                    · simp [lock, hcs] at hl
                              have hic : i < c := hGTwr i n2 c hh2 hcont
                              obtain ⟨l2, hlog2, hbound2, _, _⟩ :=
                                invoke_execLog fuel wr c w2 o hGTwr h
                              refine ⟨i :: l2, ?_, ?_, fun h0 => absurd h0 hfun_ne,
                                fun _ => ?_⟩
                              · rw [hlog2, hwrlog, List.append_assoc]
                                rfl
                              · intro j hj
                                rcases List.mem_cons.mp hj with rfl | hj2
                                · exact Nat.le_refl _
                                · exact Nat.le_of_lt
                                    (Nat.lt_of_lt_of_le hic (hbound2 j hj2))
                              · have hnot : i ∉ l2 := by
                                  intro hmem
                                  have hle := hbound2 i hmem
                                  exact Nat.lt_irrefl _ (Nat.lt_of_lt_of_le hic hle)
                                simp [List.count_cons,
                                  List.count_eq_zero.mpr hnot]
                        · rw [if_neg hdone] at h
                          simp only [Option.some.injEq, Prod.mk.injEq] at h
                          refine ⟨[i], ?_, by simp, fun h0 => absurd h0 hfun_ne,
                            fun _ => by simp⟩
                          rw [← h.1, hwrlog]

/-! ### C6 — invoke requires a function and runs it exactly once -/

/-- C6: invoking a node with no assigned function fails the
`assert(m_function)` precondition fatally and changes nothing; invoking a node
with an assigned function runs that wrapped function exactly once per call
(the `contGT` hypothesis is the shape every graph built through `then` has:
a continuation reference always points at a strictly newer node). -/
theorem c6_invoke_runs_once {T : Type} (fuel fuel2 : Nat) (w : World T)
    (i : NodeId) (fc : FuncCode T) :
    ((w.heap i).isSome → (w.heap i).bind Task.function = none →
        invoke (fuel + 1) w i = some (w, Outcome.assertNoFunction)) ∧
    (contGT w → (w.heap i).bind Task.function = some fc →
        ∀ w2 o, invoke fuel2 w i = some (w2, o) →
          w2.execLog.count i = w.execLog.count i + 1) := by
  constructor
  · intro hs hnone
    obtain ⟨n, hn⟩ := Option.isSome_iff_exists.mp hs
    have hf : n.function = none := by simpa [hn] using hnone
    simp [invoke, hn, hf]
  · intro hGT hfun w2 o hinv
    obtain ⟨l, hlog, _, _, hcount⟩ := invoke_execLog fuel2 w i w2 o hGT hinv
    have h1 : l.count i = 1 := hcount (by simp [hfun])
    rw [hlog, List.count_append, h1]

/-- World with a single node whose function computes 5 (no continuation). -/
def c6world : World Nat :=
  ((emptyWorld.construct "" false).1.setFunction 0 (FuncCode.setResultDone 5))

theorem c6world_heap : ∀ j, c6world.heap j =
    if j = 0 then
      some ⟨some (FuncCode.setResultDone 5), 1, none, [], none, "", TsInvalid, false⟩
    else none := by
  intro j
  by_cases hj : j = 0 <;>
    simp [c6world, emptyWorld, World.construct, World.setFunction,
      World.modifyNode, updateNode, mkTask, Task.reset, hj]

theorem c6world_contGT : contGT c6world := by
  intro j n c hj hc
  rw [c6world_heap j] at hj
  by_cases h0 : j = 0
  · rw [if_pos h0] at hj
    have hn := Option.some.inj hj
    rw [← hn] at hc
    simp at hc
  · rw [if_neg h0] at hj
    simp at hj

/-- Witness for C6 at a concrete input. -/
theorem c6_invoke_runs_once_witness :
    contGT c6world ∧
    ((c6world.heap 0).bind Task.function = some (FuncCode.setResultDone 5)) ∧
    (invoke 2 c6world 0 =
        some (((invoke 2 c6world 0).getD (c6world, Outcome.ok)).1,
          ((invoke 2 c6world 0).getD (c6world, Outcome.ok)).2)) ∧
    (((invoke 2 c6world 0).getD (c6world, Outcome.ok)).1.execLog.count 0 =
        c6world.execLog.count 0 + 1) := by
  refine ⟨c6world_contGT, by rfl, by rfl, ?_⟩
  exact (c6_invoke_runs_once 0 2 c6world 0 (FuncCode.setResultDone 5)).2
    c6world_contGT (by rfl) _ _ (by rfl)

/-! ### C1 — a destroyed continuation is silently skipped -/

/-- World: node 0 computes 21 and was chained via `then` into node 1. -/
def c1w0 : World Nat :=
  ((emptyWorld.construct "" false).1.setFunction 0 (FuncCode.setResultDone 21))

/-- World after `then`: node 1 is node 0's continuation. -/
def c1w1 : World Nat :=
  (c1w0.thenTask 0 (Callable.withArg (fun x => x * 2)) "").1

/-- World after destroying the continuation node 1. -/
def c1w2 : World Nat := (c1w1.destroy 1).1

/-- C1, counterexample to the claim as stated: node 0's continuation reference
is non-empty (it still holds node 1) and node 1 has been destroyed, yet
invoking node 0 reports no fatal failure at all — it returns `ok` and silently
skips the continuation (only node 0's own function runs).  The guard
`!m_continuation.expired()` is false for a destroyed target, so the whole
continuation block, including its `assert(false)`, is skipped. -/
theorem c1_counterexample :
    ((c1w2.heap 0).map Task.continuation = some (some 1)) ∧
    (c1w2.heap 1 = none) ∧
    ((invoke 3 c1w2 0).map Prod.snd = some Outcome.ok) ∧
    ((invoke 3 c1w2 0).map (fun p => p.1.execLog) = some [0]) := by
  exact ⟨by decide, by rfl, by decide, by decide⟩

/-- C1 (amended): when the wrapped function returns normally leaving the node
`Done`, and the continuation reference is non-empty but its target has been
destroyed, the reference is expired, so `operator()` skips the continuation
block entirely and returns normally: the continuation is silently skipped, no
fatal failure is reported, and nothing further executes after the wrapped
function (the resulting world is exactly the post-function world).  The
`assert(false)` branch is reachable only if a non-expired reference fails to
lock, which cannot happen in the sequential semantics. -/
theorem c1_expired_continuation_skipped {T : Type} (fuel : Nat) (w : World T)
    (i c : NodeId) (fc : FuncCode T)
    (hfun : (w.heap i).bind Task.function = some fc)
    (hok : (runFunc (pushExec w i) i fc).2 = true)
    (hst : ((runFunc (pushExec w i) i fc).1.heap i).map Task.status = some TsDone)
    (hc : ((runFunc (pushExec w i) i fc).1.heap i).map Task.continuation =
        some (some c))
    (hdead : (runFunc (pushExec w i) i fc).1.heap c = none) :
    invoke (fuel + 1) w i = some ((runFunc (pushExec w i) i fc).1, Outcome.ok) := by
  obtain ⟨n, hn, hf⟩ : ∃ n, w.heap i = some n ∧ n.function = some fc := by
    cases hh : w.heap i with
    | none => simp [hh] at hfun
    | some n => exact ⟨n, rfl, by simpa [hh] using hfun⟩
  rcases hr : runFunc (pushExec w i) i fc with ⟨wr, r⟩
  rw [hr] at hok hst hc hdead
  dsimp only at hok hst hc hdead
  subst hok
  obtain ⟨n2, hn2, hstat⟩ : ∃ n2, wr.heap i = some n2 ∧ n2.status = TsDone := by
    cases hh2 : wr.heap i with
    | none => simp [hh2] at hst
    | some n2 => exact ⟨n2, rfl, by simpa [hh2] using hst⟩
  have hcont : n2.continuation = some c := by simpa [hn2] using hc
  simp [invoke, hn, hf, hr, hn2, hstat, hcont, expired, hdead]

/-- Witness for the amended C1 at a concrete input. -/
theorem c1_expired_continuation_skipped_witness :
    ((c1w2.heap 0).bind Task.function = some (FuncCode.setResultDone 21)) ∧
    ((runFunc (pushExec c1w2 0) 0 (FuncCode.setResultDone 21)).2 = true) ∧
    (((runFunc (pushExec c1w2 0) 0 (FuncCode.setResultDone 21)).1.heap 0).map
        Task.status = some TsDone) ∧
    (((runFunc (pushExec c1w2 0) 0 (FuncCode.setResultDone 21)).1.heap 0).map
        Task.continuation = some (some 1)) ∧
    ((runFunc (pushExec c1w2 0) 0 (FuncCode.setResultDone 21)).1.heap 1 = none) ∧
    (invoke 3 c1w2 0 =
        some ((runFunc (pushExec c1w2 0) 0 (FuncCode.setResultDone 21)).1,
          Outcome.ok)) := by
  refine ⟨by rfl, by rfl, by decide, by decide, by rfl, ?_⟩
  exact c1_expired_continuation_skipped 2 c1w2 0 1 (FuncCode.setResultDone 21)
    (by rfl) (by rfl) (by decide) (by decide) (by rfl)

/-! ### C5 — the Invalid-status check runs after the function -/

/-- World with one fresh node (status `TsInvalid`) whose function computes 7. -/
def c5world : World Nat :=
  ((emptyWorld.construct "" false).1.setFunction 0 (FuncCode.setResultDone 7))

/-- C5, counterexample to the claim as stated: a node whose status is still
`TsInvalid` is run by `operator()` with no precondition failure: its wrapped
function executes fully (the ghost log shows the run), and because the
function has moved the status to `TsDone` by the time
`assert(m_status != TsInvalid)` is evaluated, the check passes and the
invocation returns `ok`. -/
theorem c5_counterexample :
    ((c5world.heap 0).map Task.status = some TsInvalid) ∧
    ((invoke 2 c5world 0).map Prod.snd = some Outcome.ok) ∧
    ((invoke 2 c5world 0).map (fun p => p.1.execLog) = some [0]) := by
  exact ⟨by decide, by decide, by decide⟩

/-- C5 (amended): `operator()` runs the wrapped function first and only then
evaluates `assert(m_status != TsInvalid)` against the status the function left
behind: the assertion fails — after the function has executed — exactly when
the post-function status is `TsInvalid`; when the post-function status is
anything else the check passes and (with no live continuation to fire) the
invocation returns `ok`, even if the status was `TsInvalid` on entry. -/
theorem c5_status_checked_after_run {T : Type} (fuel : Nat) (w : World T)
    (i : NodeId) (fc : FuncCode T)
    (hfun : (w.heap i).bind Task.function = some fc)
    (hok : (runFunc (pushExec w i) i fc).2 = true) :
    (((runFunc (pushExec w i) i fc).1.heap i).map Task.status = some TsInvalid →
        invoke (fuel + 1) w i =
          some ((runFunc (pushExec w i) i fc).1, Outcome.assertInvalidStatus)) ∧
    (∀ st, ((runFunc (pushExec w i) i fc).1.heap i).map Task.status = some st →
        st ≠ TsInvalid →
        (st = TsDone →
          expired (runFunc (pushExec w i) i fc).1
            (contOf (runFunc (pushExec w i) i fc).1 i) = true) →
        invoke (fuel + 1) w i =
          some ((runFunc (pushExec w i) i fc).1, Outcome.ok)) := by
  obtain ⟨n, hn, hf⟩ : ∃ n, w.heap i = some n ∧ n.function = some fc := by
    cases hh : w.heap i with
    | none => simp [hh] at hfun
    | some n => exact ⟨n, rfl, by simpa [hh] using hfun⟩
  rcases hr : runFunc (pushExec w i) i fc with ⟨wr, r⟩
  rw [hr] at hok
  dsimp only at hok
  subst hok
  constructor
  · intro hst
    obtain ⟨n2, hn2, hstat⟩ : ∃ n2, wr.heap i = some n2 ∧ n2.status = TsInvalid := by
      cases hh2 : wr.heap i with
      | none => simp [hh2] at hst
      | some n2 => exact ⟨n2, rfl, by simpa [hh2] using hst⟩
    simp [invoke, hn, hf, hr, hn2, hstat]
  · intro st hst hne hexp
    obtain ⟨n2, hn2, hstat⟩ : ∃ n2, wr.heap i = some n2 ∧ n2.status = st := by
      cases hh2 : wr.heap i with
      | none => simp [hh2] at hst
      | some n2 => exact ⟨n2, rfl, by simpa [hh2] using hst⟩
    by_cases hd : st = TsDone
    · have hexp2 : expired wr n2.continuation = true := by
        have h0 := hexp hd
        simpa [contOf, hn2] using h0
      simp [invoke, hn, hf, hr, hn2, hstat, hne, hexp2]
    · simp [invoke, hn, hf, hr, hn2, hstat, hne, hd]

/-- World with one fresh node whose function does not set any status. -/
def c5noopWorld : World Nat :=
  ((emptyWorld.construct "" false).1.setFunction 0 FuncCode.noop)

/-- Witness for the amended C5 at a concrete input: the no-op function leaves
the status `TsInvalid`, so the check fails only after the function has run. -/
theorem c5_status_checked_after_run_witness :
    ((c5noopWorld.heap 0).bind Task.function = some FuncCode.noop) ∧
    ((runFunc (pushExec c5noopWorld 0) 0 FuncCode.noop).2 = true) ∧
    (((runFunc (pushExec c5noopWorld 0) 0 FuncCode.noop).1.heap 0).map
        Task.status = some TsInvalid) ∧
    (invoke 1 c5noopWorld 0 =
        some ((runFunc (pushExec c5noopWorld 0) 0 FuncCode.noop).1,
          Outcome.assertInvalidStatus)) := by
  refine ⟨by rfl, by rfl, by decide, ?_⟩
  exact (c5_status_checked_after_run 0 c5noopWorld 0 FuncCode.noop
    (by rfl) (by rfl)).1 (by decide)

/-! ### C3 — leaving Done resets the result channel -/

/-- C3: `setStatus s` on a node whose status is `Done` with `s ≠ Done` replaces
the result channel with a fresh unfulfilled generation before recording `s`;
any other call leaves the channel's generation unchanged.  A future obtained
before such a reset still reads the pre-reset channel even after the new
generation is fulfilled, and a future obtained after the reset starts
unfulfilled and observes exactly the post-reset write. -/
theorem c3_setStatus_reset {T : Type} (w : World T) (i : NodeId) (s : TaskStatus)
    (g : Nat) (hg : (w.heap i).map Task.promiseGen = some g) :
    (((w.setStatus i s).heap i).map Task.status = some s) ∧
    ((w.setStatus i s).writes = w.writes) ∧
    ((w.heap i).map Task.status = some TsDone → s ≠ TsDone →
        (((w.setStatus i s).heap i).map Task.promiseGen = some (g + 1)) ∧
        (∀ v, futureRead ((w.setStatus i s).fulfill i v) i g = futureRead w i g) ∧
        (writesBound w = true →
            (futureRead (w.setStatus i s) i (g + 1) = none) ∧
            (∀ v, futureRead ((w.setStatus i s).fulfill i v) i (g + 1) = some v))) ∧
    (∀ st, (w.heap i).map Task.status = some st → (st = TsDone → s = TsDone) →
        ((w.setStatus i s).heap i).map Task.promiseGen = some g) := by
  obtain ⟨n, hn, hgen⟩ : ∃ n, w.heap i = some n ∧ n.promiseGen = g := by
    cases hh : w.heap i with
    | none => simp [hh] at hg
    | some n => exact ⟨n, rfl, by simpa [hh] using hg⟩
  refine ⟨?_, setStatus_writes w i s, ?_, ?_⟩
  · by_cases hc : n.status = TsDone ∧ s ≠ TsDone
    · rw [setStatus_heap_done_ne s hn hc.1 hc.2]; rfl
    · rw [setStatus_heap_other s hn hc]; rfl
  · intro hst hs
    have hdone : n.status = TsDone := by simpa [hn] using hst
    have hw' := setStatus_heap_done_ne s hn hdone hs
    have hfresh : ∀ e ∈ w.writes, writesBound w = true →
        ¬(e.1 == i && e.2.1 == g + 1) = true := by
      intro e he hb hcontra
      have hall := List.all_eq_true.mp hb e he
      obtain ⟨hei, heg⟩ := Bool.and_eq_true_iff.mp hcontra
      have hei' : e.1 = i := by simpa using hei
      have heg' : e.2.1 = g + 1 := by simpa using heg
      rw [hei', hn] at hall
      have : e.2.1 ≤ n.promiseGen := of_decide_eq_true hall
      omega
    refine ⟨by rw [hw']; simp [Task.reset, hgen], ?_, ?_⟩
    · intro v
      have hful : ((w.setStatus i s).fulfill i v).writes =
          w.writes ++ [(i, g + 1, v)] := by
        unfold World.fulfill
        rw [hw']
        simp [setStatus_writes, Task.reset, hgen]
      unfold futureRead
      rw [hful, List.find?_append]
      have hne : ((g + 1 : Nat) == g) = false :=
        beq_eq_false_iff_ne.mpr (Nat.succ_ne_self g)
      have : List.find? (fun e => e.1 == i && e.2.1 == g) [(i, g + 1, v)] = none := by
        simp [List.find?, hne]
      rw [this, Option.or_none]
    · intro hb
      have hnone : List.find? (fun e => e.1 == i && e.2.1 == g + 1) w.writes = none :=
        List.find?_eq_none.mpr (fun e he => hfresh e he hb)
      constructor
      · unfold futureRead
        rw [setStatus_writes, hnone]
        rfl
      · intro v
        have hful : ((w.setStatus i s).fulfill i v).writes =
            w.writes ++ [(i, g + 1, v)] := by
          unfold World.fulfill
          rw [hw']
          simp [setStatus_writes, Task.reset, hgen]
        unfold futureRead
        rw [hful, List.find?_append, hnone]
        simp [List.find?]
  · intro st hst himp
    have hstn : n.status = st := by simpa [hn] using hst
    by_cases hc : n.status = TsDone ∧ s ≠ TsDone
    · exact absurd (himp (hstn ▸ hc.1)) hc.2
    · rw [setStatus_heap_other s hn hc]
      simpa using hgen

/-- World with a single node that has completed with value 5 (the spec's
scenario D before its reset). -/
def c3base : World Nat :=
  ((emptyWorld.construct "" false).1.setFunction 0 (FuncCode.setResultDone 5))

/-- The world after running scenario D's node to completion. -/
def c3w : World Nat := ((invoke 1 c3base 0).getD (emptyWorld, Outcome.ok)).1

/-- Witness for C3 at a concrete input: node 0 is Done with value 5 at
generation 1; `setStatus TsPending` moves the channel to generation 2;
fulfilling the new generation with 9 leaves the old future reading its old
value while the new future reads 9. -/
theorem c3_setStatus_reset_witness :
    ((c3w.heap 0).map Task.promiseGen = some 1) ∧
    ((c3w.heap 0).map Task.status = some TsDone) ∧
    (writesBound c3w = true) ∧
    (((c3w.setStatus 0 TsPending).heap 0).map Task.promiseGen = some 2) ∧
    (futureRead ((c3w.setStatus 0 TsPending).fulfill 0 9) 0 1 = futureRead c3w 0 1) ∧
    (futureRead (c3w.setStatus 0 TsPending) 0 2 = none) ∧
    (futureRead ((c3w.setStatus 0 TsPending).fulfill 0 9) 0 2 = some 9) := by
  have h := c3_setStatus_reset c3w 0 TsPending 1 (by decide)
  have h3 := h.2.2.1 (by decide) (by decide)
  exact ⟨by decide, by decide, by decide, h3.1, h3.2.1 9,
    (h3.2.2 (by decide)).1, (h3.2.2 (by decide)).2 9⟩

/-! ### C9 — dependency registration is append-only -/

theorem addDependenciesVariadic_spec {T : Type} :
    ∀ (ds : List NodeId) (w : World T) (i : NodeId) (l : List NodeId),
      (w.heap i).map Task.dependencies = some l →
      ((w.addDependenciesVariadic i ds).heap i).map Task.dependencies = some (l ++ ds)
  | [], w, i, l, h => by simpa [World.addDependenciesVariadic] using h
  | d :: ds, w, i, l, h => by
      obtain ⟨n, hn, hl⟩ : ∃ n, w.heap i = some n ∧ n.dependencies = l := by
        cases hh : w.heap i with
        | none => simp [hh] at h
        | some n => exact ⟨n, rfl, by simpa [hh] using h⟩
      have h2 : ((w.modifyNode i fun n =>
          { n with dependencies := n.dependencies ++ [d] }).heap i).map
            Task.dependencies = some (l ++ [d]) := by
        simp [modifyNode_heap_self _ hn, hl]
      have h3 := addDependenciesVariadic_spec ds _ i (l ++ [d]) h2
      simpa [World.addDependenciesVariadic] using h3

theorem addDependenciesVariadic_heap_ne {T : Type} :
    ∀ (ds : List NodeId) (w : World T) (i : NodeId) {j : NodeId}, j ≠ i →
      (w.addDependenciesVariadic i ds).heap j = w.heap j
  | [], _, _, _, _ => rfl
  | d :: ds, w, i, j, hne => by
      have h1 := addDependenciesVariadic_heap_ne ds
        (w.modifyNode i fun n => { n with dependencies := n.dependencies ++ [d] }) i hne
      have h2 := modifyNode_heap_ne (w := w) i
        (fun n => { n with dependencies := n.dependencies ++ [d] }) hne
      calc (w.addDependenciesVariadic i (d :: ds)).heap j
          = (w.modifyNode i fun n =>
              { n with dependencies := n.dependencies ++ [d] }).heap j := h1
        _ = w.heap j := h2

/-- C9: both registration forms append the given nodes at the end of the
dependency list in argument order, never removing or reordering existing
entries; the zero-argument variadic call changes nothing; other nodes are
untouched. -/
theorem c9_addDependencies_append {T : Type} (w : World T) (i : NodeId)
    (ds : List NodeId) (l : List NodeId)
    (h : (w.heap i).map Task.dependencies = some l) :
    (((w.addDependencies i ds).heap i).map Task.dependencies = some (l ++ ds)) ∧
    (((w.addDependenciesVariadic i ds).heap i).map Task.dependencies = some (l ++ ds)) ∧
    (w.addDependenciesVariadic i [] = w) ∧
    (∀ j, j ≠ i → (w.addDependencies i ds).heap j = w.heap j ∧
        (w.addDependenciesVariadic i ds).heap j = w.heap j) := by
  obtain ⟨n, hn, hl⟩ : ∃ n, w.heap i = some n ∧ n.dependencies = l := by
    cases hh : w.heap i with
    | none => simp [hh] at h
    | some n => exact ⟨n, rfl, by simpa [hh] using h⟩
  refine ⟨?_, addDependenciesVariadic_spec ds w i l h, rfl, ?_⟩
  · simp [World.addDependencies, modifyNode_heap_self _ hn, hl]
  · intro j hj
    exact ⟨modifyNode_heap_ne i _ hj, addDependenciesVariadic_heap_ne ds w i hj⟩

/-- World with a single node whose dependency list is `[5, 6]`. -/
def c9world : World Nat :=
  ((emptyWorld.construct "" false).1.addDependencies 0 [5, 6])

/-- Witness for C9 at a concrete input. -/
theorem c9_addDependencies_append_witness :
    ((c9world.heap 0).map Task.dependencies = some [5, 6]) ∧
    (((c9world.addDependencies 0 [7, 8]).heap 0).map Task.dependencies =
        some ([5, 6] ++ [7, 8])) ∧
    (((c9world.addDependenciesVariadic 0 [7, 8]).heap 0).map Task.dependencies =
        some ([5, 6] ++ [7, 8])) ∧
    (c9world.addDependenciesVariadic 0 [] = c9world) := by
  have h := c9_addDependencies_append c9world 0 [7, 8] [5, 6] (by decide)
  exact ⟨by decide, h.1, h.2.1, h.2.2.1⟩

/-! ### C7 — then is purely structural -/

/-- C7: `then(F)` executes nothing — the ghost execution log, the fulfilment
log and every other node are untouched.  It returns a freshly allocated node
`M` with `isContinuation = true`, whose function is the wrapper capturing this
node and its current future, whose dependency list is exactly `[N]`, and it
overwrites `N`'s continuation reference with `M` — so after any sequence of
`then` calls the field holds exactly the node returned by the most recent
call. -/
theorem c7_then_structural {T : Type} (w : World T) (i : NodeId) (n : Task T)
    (c : Callable T) (nm : String) (hWF : WF w) (hn : w.heap i = some n) :
    ((w.thenTask i c nm).2 = w.nextId) ∧
    ((w.thenTask i c nm).1.heap w.nextId = some
        { function := some (FuncCode.thenCont i n.promiseGen c)
          promiseGen := 1
          continuation := none
          dependencies := [i]
          collector := none
          name := nm
          status := TsInvalid
          isContinuation := true }) ∧
    ((w.thenTask i c nm).1.heap i = some { n with continuation := some w.nextId }) ∧
    (∀ j, j ≠ i → j ≠ w.nextId → (w.thenTask i c nm).1.heap j = w.heap j) ∧
    ((w.thenTask i c nm).1.execLog = w.execLog) ∧
    ((w.thenTask i c nm).1.writes = w.writes) := by
  have hi : i ≠ w.nextId := by
    intro he
    rw [hWF i (by rw [he])] at hn
    exact Option.noConfusion hn
  refine ⟨?_, ?_, ?_, ?_, ?_, ?_⟩
  · simp [World.thenTask, hn, World.construct]
  · simp [World.thenTask, hn, World.construct, World.setFunction,
      World.addDependenciesVariadic, World.modifyNode, updateNode, mkTask,
      Task.reset, hi, Ne.symm hi]
  · simp [World.thenTask, hn, World.construct, World.setFunction,
      World.addDependenciesVariadic, World.modifyNode, updateNode, mkTask,
      Task.reset, hi, Ne.symm hi]
  · intro j hj1 hj2
    simp [World.thenTask, hn, World.construct, World.setFunction,
      World.addDependenciesVariadic, World.modifyNode, updateNode, mkTask,
      Task.reset, hi, Ne.symm hi, hj1, hj2]
  · simp [World.thenTask, hn, World.construct, World.setFunction,
      World.addDependenciesVariadic, World.modifyNode, updateNode, hi,
      Ne.symm hi]
  · simp [World.thenTask, hn, World.construct, World.setFunction,
      World.addDependenciesVariadic, World.modifyNode, updateNode, hi,
      Ne.symm hi]

/-- World with one freshly constructed node, for the C7 witness. -/
def c7base : World Nat := (emptyWorld.construct "" false).1

theorem c7base_WF : WF (c7base : World Nat) := by
  intro j hj
  have h1 : c7base.nextId = 1 := rfl
  rw [h1] at hj
  have hj0 : j ≠ 0 := by rintro rfl; exact absurd hj (by decide)
  simp [c7base, World.construct, emptyWorld, updateNode, hj0]

/-- Witness for C7 at a concrete input. -/
theorem c7_then_structural_witness :
    WF c7base ∧
    (c7base.heap 0 =
        some ⟨none, 1, none, [], none, "", TsInvalid, false⟩) ∧
    ((c7base.thenTask 0 (Callable.withArg (fun x => x + 1)) "m").2 =
        c7base.nextId) ∧
    ((c7base.thenTask 0 (Callable.withArg (fun x => x + 1)) "m").1.heap
        c7base.nextId = some
        { function := some (FuncCode.thenCont 0 1 (Callable.withArg (fun x => x + 1)))
          promiseGen := 1
          continuation := none
          dependencies := [0]
          collector := none
          name := "m"
          status := TsInvalid
          isContinuation := true }) ∧
    ((c7base.thenTask 0 (Callable.withArg (fun x => x + 1)) "m").1.heap 0 =
        some { (⟨none, 1, none, [], none, "", TsInvalid, false⟩ : Task Nat) with
          continuation := some c7base.nextId }) ∧
    ((c7base.thenTask 0 (Callable.withArg (fun x => x + 1)) "m").1.execLog =
        c7base.execLog) ∧
    ((c7base.thenTask 0 (Callable.withArg (fun x => x + 1)) "m").1.writes =
        c7base.writes) := by
  have h := c7_then_structural c7base 0
    ⟨none, 1, none, [], none, "", TsInvalid, false⟩
    (Callable.withArg (fun x => x + 1)) "m" c7base_WF (by rfl)
  exact ⟨c7base_WF, by rfl, h.1, h.2.1, h.2.2.1, h.2.2.2.2.1, h.2.2.2.2.2⟩

/-! ### C4 — the then-continuation cascade -/

/-- The canonical chained pair of the spec's scenario: construct `N`, assign
it a user function that writes `v` into its result channel and sets `TsDone`,
and chain the callable `f` after it with `then`, yielding `M`.
`N` is node `w0.nextId`, `M` is node `w0.nextId + 1`. -/
def c4setup {T : Type} (w0 : World T) (v : T) (f : T → T) : World T :=
  let p1 := w0.construct "" false
  let w1 := p1.1.setFunction p1.2 (FuncCode.setResultDone v)
  (w1.thenTask p1.2 (Callable.withArg f) "").1

theorem c4setup_heap {T : Type} (w0 : World T) (v : T) (f : T → T) :
    ((c4setup w0 v f).heap w0.nextId = some
        ⟨some (FuncCode.setResultDone v), 1, some (w0.nextId + 1), [], none, "",
          TsInvalid, false⟩) ∧
    ((c4setup w0 v f).heap (w0.nextId + 1) = some
        ⟨some (FuncCode.thenCont w0.nextId 1 (Callable.withArg f)), 1, none,
          [w0.nextId], none, "", TsInvalid, true⟩) ∧
    ((c4setup w0 v f).writes = w0.writes) ∧
    ((c4setup w0 v f).execLog = w0.execLog) := by
  have hne : w0.nextId + 1 ≠ w0.nextId := Nat.succ_ne_self _
  have hne' : w0.nextId ≠ w0.nextId + 1 := Ne.symm hne
  refine ⟨?_, ?_, ?_, ?_⟩ <;>
    simp [c4setup, World.construct, World.setFunction, World.thenTask,
      World.modifyNode, World.addDependenciesVariadic, updateNode, mkTask,
      Task.reset, hne, hne']

/-- C4: invoking a node `N` (set up by `c4setup`: its function writes `v` and
sets `TsDone`, and `M` was chained after it with `then(f)`) runs to `ok`:
by the time `invoke` on `N` returns, both `N` and `M` are `TsDone`, `N`'s
future reads `v`, `M`'s future reads `f v` (the callable received `N`'s
produced result), and the execution log shows `N`'s run followed by `M`'s. -/
theorem c4_then_cascade {T : Type} (fuel : Nat) (w0 : World T) (v : T)
    (f : T → T) (hIds : writesIdsBound w0 = true) :
    ((invoke (fuel + 1 + 1) (c4setup w0 v f) w0.nextId).isSome) ∧
    (∀ q, invoke (fuel + 1 + 1) (c4setup w0 v f) w0.nextId = some q →
      q.2 = Outcome.ok ∧
      q.1.getStatus w0.nextId = some TsDone ∧
      q.1.getStatus (w0.nextId + 1) = some TsDone ∧
      readFuture q.1 (q.1.getFuture w0.nextId) = some v ∧
      readFuture q.1 (q.1.getFuture (w0.nextId + 1)) = some (f v) ∧
      q.1.execLog = w0.execLog ++ [w0.nextId, w0.nextId + 1]) := by
  obtain ⟨hN, hM, hSw, hSe⟩ := c4setup_heap w0 v f
  have hne : w0.nextId + 1 ≠ w0.nextId := Nat.succ_ne_self _
  have hne' : w0.nextId ≠ w0.nextId + 1 := Ne.symm hne
  have hfind : ∀ (j : NodeId) (g : Nat), w0.nextId ≤ j →
      List.find? (fun e => e.1 == j && e.2.1 == g) w0.writes = none := by
    intro j g hj
    refine List.find?_eq_none.mpr (fun e he => ?_)
    have hlt : e.1 < w0.nextId :=
      of_decide_eq_true (List.all_eq_true.mp hIds e he)
    have hej : e.1 ≠ j := by
      intro hq
      rw [hq] at hlt
      exact Nat.lt_irrefl j (Nat.lt_of_lt_of_le hlt hj)
    simp [hej]
  have hXf : ((pushExec (c4setup w0 v f) w0.nextId).fulfill w0.nextId v).heap
      w0.nextId = some ⟨some (FuncCode.setResultDone v), 1, some (w0.nextId + 1),
        [], none, "", TsInvalid, false⟩ := by
    rw [fulfill_heap, pushExec_heap]
    exact hN
  have hA : (((pushExec (c4setup w0 v f) w0.nextId).fulfill w0.nextId v).setStatus
      w0.nextId TsDone).heap w0.nextId =
      some ⟨some (FuncCode.setResultDone v), 1, some (w0.nextId + 1), [], none,
        "", TsDone, false⟩ := by
    rw [setStatus_heap_other TsDone hXf (by simp)]
  have hAm : (((pushExec (c4setup w0 v f) w0.nextId).fulfill w0.nextId v).setStatus
      w0.nextId TsDone).heap (w0.nextId + 1) =
      some ⟨some (FuncCode.thenCont w0.nextId 1 (Callable.withArg f)), 1, none,
        [w0.nextId], none, "", TsInvalid, true⟩ := by
    rw [setStatus_heap_ne _ _ _ hne, fulfill_heap, pushExec_heap]
    exact hM
  have hAw : (((pushExec (c4setup w0 v f) w0.nextId).fulfill w0.nextId v).setStatus
      w0.nextId TsDone).writes = w0.writes ++ [(w0.nextId, 1, v)] := by
    rw [setStatus_writes, fulfill_writes v (show (pushExec (c4setup w0 v f)
      w0.nextId).heap w0.nextId = some ⟨some (FuncCode.setResultDone v), 1,
      some (w0.nextId + 1), [], none, "", TsInvalid, false⟩ from hN)]
    simp [pushExec_writes, hSw]
  have hAe : (((pushExec (c4setup w0 v f) w0.nextId).fulfill w0.nextId v).setStatus
      w0.nextId TsDone).execLog = w0.execLog ++ [w0.nextId] := by
    rw [setStatus_execLog, fulfill_execLog, pushExec_execLog, hSe]
  have hfr : futureRead (pushExec ((((pushExec (c4setup w0 v f)
      w0.nextId).fulfill w0.nextId v).setStatus w0.nextId TsDone))
      (w0.nextId + 1)) w0.nextId 1 = some v := by
    unfold futureRead
    rw [pushExec_writes, hAw, List.find?_append,
      hfind w0.nextId 1 (Nat.le_refl _)]
    simp [List.find?]
  have hBf : ((pushExec ((((pushExec (c4setup w0 v f) w0.nextId).fulfill
      w0.nextId v).setStatus w0.nextId TsDone)) (w0.nextId + 1)).fulfill
      (w0.nextId + 1) (f v)).heap (w0.nextId + 1) =
      some ⟨some (FuncCode.thenCont w0.nextId 1 (Callable.withArg f)), 1, none,
        [w0.nextId], none, "", TsInvalid, true⟩ := by
    rw [fulfill_heap, pushExec_heap]
    exact hAm
  have hB : (((pushExec ((((pushExec (c4setup w0 v f) w0.nextId).fulfill
      w0.nextId v).setStatus w0.nextId TsDone)) (w0.nextId + 1)).fulfill
      (w0.nextId + 1) (f v)).setStatus (w0.nextId + 1) TsDone).heap
      (w0.nextId + 1) =
      some ⟨some (FuncCode.thenCont w0.nextId 1 (Callable.withArg f)), 1, none,
        [w0.nextId], none, "", TsDone, true⟩ := by
    rw [setStatus_heap_other TsDone hBf (by simp)]
  have hBn0 : (((pushExec ((((pushExec (c4setup w0 v f) w0.nextId).fulfill
      w0.nextId v).setStatus w0.nextId TsDone)) (w0.nextId + 1)).fulfill
      (w0.nextId + 1) (f v)).setStatus (w0.nextId + 1) TsDone).heap w0.nextId =
      some ⟨some (FuncCode.setResultDone v), 1, some (w0.nextId + 1), [], none,
        "", TsDone, false⟩ := by
    rw [setStatus_heap_ne _ _ _ hne', fulfill_heap, pushExec_heap]
    exact hA
  have hBw : (((pushExec ((((pushExec (c4setup w0 v f) w0.nextId).fulfill
      w0.nextId v).setStatus w0.nextId TsDone)) (w0.nextId + 1)).fulfill
      (w0.nextId + 1) (f v)).setStatus (w0.nextId + 1) TsDone).writes =
      w0.writes ++ [(w0.nextId, 1, v), (w0.nextId + 1, 1, f v)] := by
    rw [setStatus_writes, fulfill_writes (f v) (show (pushExec ((((pushExec
      (c4setup w0 v f) w0.nextId).fulfill w0.nextId v).setStatus w0.nextId
      TsDone)) (w0.nextId + 1)).heap (w0.nextId + 1) =
      some ⟨some (FuncCode.thenCont w0.nextId 1 (Callable.withArg f)), 1, none,
        [w0.nextId], none, "", TsInvalid, true⟩ from hAm)]
    simp [pushExec_writes, hAw]
  have hBe : (((pushExec ((((pushExec (c4setup w0 v f) w0.nextId).fulfill
      w0.nextId v).setStatus w0.nextId TsDone)) (w0.nextId + 1)).fulfill
      (w0.nextId + 1) (f v)).setStatus (w0.nextId + 1) TsDone).execLog =
      w0.execLog ++ [w0.nextId, w0.nextId + 1] := by
    rw [setStatus_execLog, fulfill_execLog, pushExec_execLog, hAe]
    simp
  have hread1 : futureRead (((pushExec ((((pushExec (c4setup w0 v f)
      w0.nextId).fulfill w0.nextId v).setStatus w0.nextId TsDone))
      (w0.nextId + 1)).fulfill (w0.nextId + 1) (f v)).setStatus (w0.nextId + 1)
      TsDone) w0.nextId 1 = some v := by
    unfold futureRead
    rw [hBw, List.find?_append, hfind w0.nextId 1 (Nat.le_refl _)]
    simp [List.find?]
  have hread2 : futureRead (((pushExec ((((pushExec (c4setup w0 v f)
      w0.nextId).fulfill w0.nextId v).setStatus w0.nextId TsDone))
      (w0.nextId + 1)).fulfill (w0.nextId + 1) (f v)).setStatus (w0.nextId + 1)
      TsDone) (w0.nextId + 1) 1 = some (f v) := by
    unfold futureRead
    rw [hBw, List.find?_append, hfind (w0.nextId + 1) 1 (Nat.le_succ _)]
    have hbeq : (w0.nextId == w0.nextId + 1) = false :=
      beq_eq_false_iff_ne.mpr hne'
    simp [List.find?, hbeq]
  have hmain : invoke (fuel + 1 + 1) (c4setup w0 v f) w0.nextId =
      some (((pushExec ((((pushExec (c4setup w0 v f) w0.nextId).fulfill
        w0.nextId v).setStatus w0.nextId TsDone)) (w0.nextId + 1)).fulfill
        (w0.nextId + 1) (f v)).setStatus (w0.nextId + 1) TsDone,
        Outcome.ok) := by
    simp [invoke, runFunc, hN, hA, hAm, hfr, hB, expired, lock]
  refine ⟨by rw [hmain]; rfl, ?_⟩
  intro q hq
  rw [hmain] at hq
  obtain rfl := (Option.some.inj hq).symm
  refine ⟨rfl, ?_, ?_, ?_, ?_, hBe⟩
  · simp [World.getStatus, hBn0]
  · simp [World.getStatus, hB]
  · simp [readFuture, World.getFuture, hBn0, hread1]
  · simp [readFuture, World.getFuture, hB, hread2]

/-- Witness for C4 at the spec's concrete scenario: node `A` (id 0) computes
21, `B = A.then(x => x * 2)` (id 1); running `A` leaves both `Done` with
futures 21 and 42, and the log shows `A`'s run followed by `B`'s. -/
theorem c4_then_cascade_witness :
    (writesIdsBound (emptyWorld : World Nat) = true) ∧
    (invoke 2 (c4setup (emptyWorld : World Nat) 21 (fun x => x * 2)) 0 =
      some ((invoke 2 (c4setup (emptyWorld : World Nat) 21 (fun x => x * 2))
        0).getD (emptyWorld, Outcome.ok))) ∧
    (((invoke 2 (c4setup (emptyWorld : World Nat) 21 (fun x => x * 2)) 0).getD
        (emptyWorld, Outcome.ok)).2 = Outcome.ok) ∧
    (((invoke 2 (c4setup (emptyWorld : World Nat) 21 (fun x => x * 2)) 0).getD
        (emptyWorld, Outcome.ok)).1.getStatus 0 = some TsDone) ∧
    (((invoke 2 (c4setup (emptyWorld : World Nat) 21 (fun x => x * 2)) 0).getD
        (emptyWorld, Outcome.ok)).1.getStatus 1 = some TsDone) ∧
    (readFuture ((invoke 2 (c4setup (emptyWorld : World Nat) 21
        (fun x => x * 2)) 0).getD (emptyWorld, Outcome.ok)).1
      (((invoke 2 (c4setup (emptyWorld : World Nat) 21 (fun x => x * 2)) 0).getD
        (emptyWorld, Outcome.ok)).1.getFuture 0) = some 21) ∧
    (readFuture ((invoke 2 (c4setup (emptyWorld : World Nat) 21
        (fun x => x * 2)) 0).getD (emptyWorld, Outcome.ok)).1
      (((invoke 2 (c4setup (emptyWorld : World Nat) 21 (fun x => x * 2)) 0).getD
        (emptyWorld, Outcome.ok)).1.getFuture 1) = some 42) ∧
    (((invoke 2 (c4setup (emptyWorld : World Nat) 21 (fun x => x * 2)) 0).getD
        (emptyWorld, Outcome.ok)).1.execLog = [0, 1]) := by
  have h := (c4_then_cascade 0 (emptyWorld : World Nat) 21 (fun x => x * 2)
    (by decide)).2
  have hq : invoke 2 (c4setup (emptyWorld : World Nat) 21 (fun x => x * 2)) 0 =
      some ((invoke 2 (c4setup (emptyWorld : World Nat) 21 (fun x => x * 2))
        0).getD (emptyWorld, Outcome.ok)) := by rfl
  have h2 := h _ hq
  exact ⟨by decide, hq, h2.1, h2.2.1, h2.2.2.1, h2.2.2.2.1, h2.2.2.2.2.1,
    h2.2.2.2.2.2⟩

/-! ### C8 — the global instance counter -/

/-- One engine operation, for stating counter bookkeeping across a whole run. -/
inductive Op (T : Type) where
  | constructOp (nm : String) (isCont : Bool)
  | destroyOp (i : NodeId)
  | thenOp (i : NodeId) (c : Callable T) (nm : String)
  | setStatusOp (i : NodeId) (s : TaskStatus)
  | setFunctionOp (i : NodeId) (fc : FuncCode T)
  | addDepsOp (i : NodeId) (ds : List NodeId)
  | setCollectorOp (i : NodeId) (c : Option CollectorId)
  | invokeOp (fuel : Nat) (i : NodeId)

def applyOp {T : Type} (w : World T) : Op T → World T
  | .constructOp nm ic => (w.construct nm ic).1
  | .destroyOp i => (w.destroy i).1
  | .thenOp i c nm => (w.thenTask i c nm).1
  | .setStatusOp i s => w.setStatus i s
  | .setFunctionOp i fc => w.setFunction i fc
  | .addDepsOp i ds => w.addDependencies i ds
  | .setCollectorOp i c => w.setTimeIntervalCollector i c
  | .invokeOp fuel i =>
      match invoke fuel w i with
      | some p => p.1
      | none => w

def applyOps {T : Type} (w : World T) : List (Op T) → World T
  | [] => w
  | op :: rest => applyOps (applyOp w op) rest

/-- Number of node constructions an operation list performs (a `then` call
constructs its continuation node). -/
def conCount {T : Type} : List (Op T) → Nat
  | [] => 0
  | .constructOp _ _ :: rest => conCount rest + 1
  | .thenOp _ _ _ :: rest => conCount rest + 1
  | _ :: rest => conCount rest

/-- Number of node destructions an operation list performs. -/
def desCount {T : Type} : List (Op T) → Nat
  | [] => 0
  | .destroyOp _ :: rest => desCount rest + 1
  | _ :: rest => desCount rest

/-- Validity of one operation: destruction and chaining target live nodes
(in C++ a destructor runs exactly once per object and `then` is called through
a live one). -/
def opValid {T : Type} (w : World T) : Op T → Bool
  | .destroyOp i => (w.heap i).isSome
  | .thenOp i _ _ => (w.heap i).isSome
  | _ => true

def opsValid {T : Type} (w : World T) : List (Op T) → Bool
  | [] => true
  | op :: rest => opValid w op && opsValid (applyOp w op) rest

theorem addDependenciesVariadic_instanceCount {T : Type} :
    ∀ (ds : List NodeId) (w : World T) (i : NodeId),
      (w.addDependenciesVariadic i ds).instanceCount = w.instanceCount
  | [], _, _ => rfl
  | d :: ds, w, i => by
      have h1 := addDependenciesVariadic_instanceCount ds
        (w.modifyNode i (fun n => { n with dependencies := n.dependencies ++ [d] })) i
      rw [modifyNode_instanceCount] at h1
      exact h1

theorem invoke_instanceCount {T : Type} :
    ∀ (fuel : Nat) (w : World T) (i : NodeId) (p : World T × Outcome),
      invoke fuel w i = some p → p.1.instanceCount = w.instanceCount
  | 0, w, i, p, h => by simp [invoke] at h
  | fuel + 1, w, i, p, h => by
      cases hh : w.heap i with
      | none => simp [invoke, hh] at h
      | some n =>
          cases hf : n.function with
          | none =>
              simp only [invoke, hh, hf, Option.some.injEq] at h
              rw [← h]
          | some fc =>
              rcases hr : runFunc (pushExec w i) i fc with ⟨wr, r⟩
              have hwr : wr.instanceCount = w.instanceCount := by
                have h0 := runFunc_instanceCount (pushExec w i) i fc
                rw [hr] at h0
                simpa [pushExec] using h0
              simp only [invoke, hh, hf, hr] at h
              cases r with
              | false =>
                  simp only [Option.some.injEq] at h
                  rw [← h]; exact hwr
              | true =>
                  cases hh2 : wr.heap i with
                  | none => simp [hh2] at h
                  | some n2 =>
                      simp only [hh2] at h
                      by_cases hinv : n2.status = TsInvalid
                      · rw [if_pos hinv] at h
                        simp only [Option.some.injEq] at h
                        rw [← h]; exact hwr
                      · rw [if_neg hinv] at h
                        by_cases hdone : n2.status = TsDone ∧
                            expired wr n2.continuation = false
                        · rw [if_pos hdone] at h
                          cases hl : lock wr n2.continuation with
                          | none =>
                              simp only [hl, Option.some.injEq] at h
                              rw [← h]; exact hwr
                          | some c =>
                              simp only [hl] at h
                              rw [invoke_instanceCount fuel wr c p h]
                              exact hwr
                        · rw [if_neg hdone] at h
                          simp only [Option.some.injEq] at h
                          rw [← h]; exact hwr

theorem applyOps_instanceCount {T : Type} :
    ∀ (ops : List (Op T)) (w : World T), w.instanceCount < 4294967296 →
      opsValid w ops = true →
      (applyOps w ops).instanceCount =
        (w.instanceCount + conCount ops + 4294967295 * desCount ops) % 4294967296
  | [], w, hlt, _ => by
      simp [applyOps, conCount, desCount, Nat.mod_eq_of_lt hlt]
  | op :: rest, w, hlt, hv => by
      obtain ⟨hv1, hv2⟩ := Bool.and_eq_true_iff.mp hv
      have hkey : (applyOp w op).instanceCount < 4294967296 ∧
          ((applyOp w op).instanceCount = w.instanceCount ∧ conCount [op] = 0 ∧
              desCount [op] = 0 ∨
            (applyOp w op).instanceCount = (w.instanceCount + 1) % 4294967296 ∧
              conCount [op] = 1 ∧ desCount [op] = 0 ∨
            (applyOp w op).instanceCount =
                (w.instanceCount + 4294967295) % 4294967296 ∧
              conCount [op] = 0 ∧ desCount [op] = 1) := by
        cases op with
        | constructOp nm ic =>
            refine ⟨?_, Or.inr (Or.inl ⟨rfl, rfl, rfl⟩)⟩
            exact Nat.mod_lt _ (by decide)
        | destroyOp i =>
            obtain ⟨n, hn⟩ := Option.isSome_iff_exists.mp hv1
            have hd : (applyOp w (Op.destroyOp i)).instanceCount =
                (w.instanceCount + 4294967295) % 4294967296 := by
              simp [applyOp, World.destroy, hn]
            refine ⟨?_, Or.inr (Or.inr ⟨hd, rfl, rfl⟩)⟩
            rw [hd]; exact Nat.mod_lt _ (by decide)
        | thenOp i c nm =>
            obtain ⟨n, hn⟩ := Option.isSome_iff_exists.mp hv1
            have hd : (applyOp w (Op.thenOp i c nm)).instanceCount =
                (w.instanceCount + 1) % 4294967296 := by
              simp [applyOp, World.thenTask, hn, World.construct,
                World.setFunction, modifyNode_instanceCount,
                addDependenciesVariadic_instanceCount]
            refine ⟨?_, Or.inr (Or.inl ⟨hd, rfl, rfl⟩)⟩
            rw [hd]; exact Nat.mod_lt _ (by decide)
        | setStatusOp i s =>
            exact ⟨by rw [show (applyOp w (Op.setStatusOp i s)).instanceCount =
                w.instanceCount from setStatus_instanceCount w i s]; exact hlt,
              Or.inl ⟨setStatus_instanceCount w i s, rfl, rfl⟩⟩
        | setFunctionOp i fc =>
            exact ⟨by rw [show (applyOp w (Op.setFunctionOp i fc)).instanceCount =
                w.instanceCount from modifyNode_instanceCount w i _]; exact hlt,
              Or.inl ⟨modifyNode_instanceCount w i _, rfl, rfl⟩⟩
        | addDepsOp i ds =>
            exact ⟨by rw [show (applyOp w (Op.addDepsOp i ds)).instanceCount =
                w.instanceCount from modifyNode_instanceCount w i _]; exact hlt,
              Or.inl ⟨modifyNode_instanceCount w i _, rfl, rfl⟩⟩
        | setCollectorOp i c =>
            exact ⟨by rw [show (applyOp w (Op.setCollectorOp i c)).instanceCount =
                w.instanceCount from modifyNode_instanceCount w i _]; exact hlt,
              Or.inl ⟨modifyNode_instanceCount w i _, rfl, rfl⟩⟩
        | invokeOp fuel i =>
            have hd : (applyOp w (Op.invokeOp fuel i)).instanceCount =
                w.instanceCount := by
              cases hq : invoke fuel w i with
              | none => simp [applyOp, hq]
              | some p =>
                  have hp := invoke_instanceCount fuel w i p hq
                  simp [applyOp, hq, hp]
            exact ⟨by rw [hd]; exact hlt, Or.inl ⟨hd, rfl, rfl⟩⟩
      obtain ⟨hlt2, hcase⟩ := hkey
      have hIH := applyOps_instanceCount rest (applyOp w op) hlt2 hv2
      have hcon : conCount (op :: rest) = conCount [op] + conCount rest := by
        cases op <;> simp [conCount, Nat.add_comm]
      have hdes : desCount (op :: rest) = desCount [op] + desCount rest := by
        cases op <;> simp [desCount, Nat.add_comm]
      rw [show applyOps w (op :: rest) = applyOps (applyOp w op) rest from rfl,
        hIH, hcon, hdes]
      rcases hcase with ⟨he, hc0, hd0⟩ | ⟨he, hc1, hd0⟩ | ⟨he, hc0, hd1⟩
      · rw [he, hc0, hd0]; omega
      · rw [he, hc1, hd0]; omega
      · rw [he, hc0, hd1]; omega

/-- C8: every node construction (including the one inside `then`) increments
the global instance counter by exactly one and every destruction decrements it
by exactly one, in unsigned 32-bit arithmetic; consequently over any valid run
whose construction and destruction counts balance, the counter returns to its
baseline. -/
theorem c8_instance_counter {T : Type} (w : World T) (nm : String) (ic : Bool)
    (i : NodeId) (ops : List (Op T)) :
    ((w.construct nm ic).1.instanceCount = (w.instanceCount + 1) % 4294967296) ∧
    ((w.heap i).isSome →
        (w.destroy i).1.instanceCount =
          (w.instanceCount + 4294967295) % 4294967296) ∧
    (w.instanceCount < 4294967296 → opsValid w ops = true →
        conCount ops = desCount ops →
        (applyOps w ops).instanceCount = w.instanceCount) := by
  refine ⟨rfl, ?_, ?_⟩
  · intro hs
    obtain ⟨n, hn⟩ := Option.isSome_iff_exists.mp hs
    simp [World.destroy, hn]
  · intro hlt hv hbal
    have h := applyOps_instanceCount ops w hlt hv
    rw [h, hbal]
    omega

/-- A balanced run: construct two nodes, then destroy both. -/
def c8ops : List (Op Nat) :=
  [Op.constructOp "" false, Op.constructOp "x" true,
    Op.destroyOp 1, Op.destroyOp 0]

/-- Witness for C8 at a concrete input. -/
theorem c8_instance_counter_witness :
    ((emptyWorld : World Nat).instanceCount < 4294967296) ∧
    (opsValid (emptyWorld : World Nat) c8ops = true) ∧
    (conCount c8ops = desCount c8ops) ∧
    ((applyOps (emptyWorld : World Nat) c8ops).instanceCount =
        (emptyWorld : World Nat).instanceCount) := by
  refine ⟨by decide, by decide, by decide, ?_⟩
  exact (c8_instance_counter emptyWorld "" false 0 c8ops).2.2
    (by decide) (by decide) (by decide)

/-! ### C10 — the time-interval collector accessors -/

/-- C10: `getTimeIntervalCollector` returns the collector stored by the most
recent `setTimeIntervalCollector`, ignores its own argument, and a freshly
constructed node carries the absent collector. -/
theorem c10_collector_get_set {T : Type} (w : World T) (i : NodeId)
    (c x y : Option CollectorId) (nm : String) (ic : Bool)
    (halive : (w.heap i).isSome) :
    ((w.setTimeIntervalCollector i c).getTimeIntervalCollector i x = some c) ∧
    (w.getTimeIntervalCollector i x = w.getTimeIntervalCollector i y) ∧
    ((w.construct nm ic).1.getTimeIntervalCollector (w.construct nm ic).2 y =
        some none) := by
  obtain ⟨n, hn⟩ := Option.isSome_iff_exists.mp halive
  refine ⟨?_, rfl, ?_⟩
  · simp [World.getTimeIntervalCollector, World.setTimeIntervalCollector,
      modifyNode_heap_self _ hn]
  · simp [World.getTimeIntervalCollector, World.construct, updateNode, mkTask,
      Task.reset]

/-- World with a single freshly constructed node. -/
def c10world : World Nat := (emptyWorld.construct "" false).1

/-- Witness for C10 at a concrete input. -/
theorem c10_collector_get_set_witness :
    ((c10world.heap 0).isSome = true) ∧
    ((c10world.setTimeIntervalCollector 0 (some 7)).getTimeIntervalCollector 0
        (some 3) = some (some 7)) := by
  refine ⟨by decide, ?_⟩
  exact (c10_collector_get_set c10world 0 (some 7) (some 3) none "" false
    (by decide)).1

end conc11
